import Mathlib

/-!
Verification of the monolog broker (github.com/rizkyandriawan/monolog)
against its natural-language specification.

The Go source is shallowly embedded: byte strings become `List Nat`
(each element a byte value), Go `int64`/`int32` values whose overflow is
irrelevant to the properties at stake become `Int`, Go maps become
association lists read through `alookup` (first match wins, exactly like
a map keyed on the string), and SQLite transactions become functions that
either return the updated state (commit) or the original state (rollback).
Where two's-complement wraparound does matter (the varint codec) the
embedding works in `Nat` modulo `2^64` with explicit masks.
-/

namespace Monolog

/-! ## Association lists (embedding of Go maps keyed by strings) -/

section AList

variable {α : Type}

/-- Map lookup: first pair whose key matches. -/
def alookup : List (String × α) → String → Option α
  | [], _ => none
  | (k', v) :: t, k => if k' = k then some v else alookup t k

/-- The keys of the map. -/
def akeys (l : List (String × α)) : List String := l.map Prod.fst

/-- Go map assignment `m[k] = v`: replace the binding if the key is
present, otherwise add it. -/
def ainsert : List (String × α) → String → α → List (String × α)
  | [], k, v => [(k, v)]
  | (k', v') :: t, k, v => if k' = k then (k, v) :: t else (k', v') :: ainsert t k v

/-- Go `delete(m, k)`. -/
def aerase : List (String × α) → String → List (String × α)
  | [], _ => []
  | (k', v') :: t, k => if k' = k then aerase t k else (k', v') :: aerase t k

theorem alookup_ainsert_self (l : List (String × α)) (k : String) (v : α) :
    alookup (ainsert l k v) k = some v := by
  induction l with
  | nil => simp [ainsert, alookup]
  | cons p t ih =>
    obtain ⟨k', v'⟩ := p
    by_cases h : k' = k
    · simp [ainsert, alookup, h]
    · simp [ainsert, alookup, h, ih]

theorem alookup_ainsert_ne (l : List (String × α)) {k k' : String} (v : α)
    (h : k' ≠ k) : alookup (ainsert l k v) k' = alookup l k' := by
  induction l with
  | nil => simp [ainsert, alookup, Ne.symm h]
  | cons p t ih =>
    obtain ⟨k₀, v₀⟩ := p
    by_cases h₀ : k₀ = k
    · subst h₀
      simp [ainsert, alookup, Ne.symm h]
    · simp [ainsert, alookup, h₀, ih]

theorem mem_ainsert {k : String} {v : α} {p : String × α} :
    ∀ {l : List (String × α)}, p ∈ ainsert l k v → p = (k, v) ∨ p ∈ l := by
  intro l
  induction l with
  | nil =>
    intro h
    simp only [ainsert, List.mem_singleton] at h
    exact Or.inl h
  | cons q t ih =>
    intro h
    obtain ⟨k₀, v₀⟩ := q
    by_cases h₀ : k₀ = k
    · subst h₀
      simp [ainsert] at h
      rcases h with h | h
      · exact Or.inl (by simp [h])
      · exact Or.inr (List.mem_cons_of_mem _ h)
    · simp only [ainsert, if_neg h₀, List.mem_cons] at h
      rcases h with h | h
      · exact Or.inr (by simp [h])
      · rcases ih h with h' | h'
        · exact Or.inl h'
        · exact Or.inr (List.mem_cons_of_mem _ h')

theorem akeys_ainsert_of_mem {k' : String} (k : String) (v : α) :
    ∀ {l : List (String × α)}, k' ∈ akeys l → k' ∈ akeys (ainsert l k v) := by
  intro l
  induction l with
  | nil => intro h; simp [akeys] at h
  | cons q t ih =>
    intro h
    obtain ⟨k₀, v₀⟩ := q
    simp only [akeys, List.map_cons, List.mem_cons] at h
    by_cases h₀ : k₀ = k
    · subst h₀
      simp only [akeys] at h ⊢
      simpa [ainsert] using h
    · simp only [ainsert, if_neg h₀, akeys, List.map_cons, List.mem_cons]
      rcases h with h | h
      · exact Or.inl h
      · exact Or.inr (ih h)

theorem self_mem_akeys_ainsert (l : List (String × α)) (k : String) (v : α) :
    k ∈ akeys (ainsert l k v) := by
  induction l with
  | nil => simp [ainsert, akeys]
  | cons q t ih =>
    obtain ⟨k₀, v₀⟩ := q
    by_cases h₀ : k₀ = k
    · simp [ainsert, h₀, akeys]
    · simp only [ainsert, if_neg h₀, akeys, List.map_cons, List.mem_cons]
      exact Or.inr ih

theorem ainsert_ne_nil (l : List (String × α)) (k : String) (v : α) :
    ainsert l k v ≠ [] := by
  cases l with
  | nil => simp [ainsert]
  | cons q t =>
    obtain ⟨k₀, v₀⟩ := q
    by_cases h₀ : k₀ = k <;> simp [ainsert, h₀]

theorem mem_aerase {k : String} {p : String × α} :
    ∀ {l : List (String × α)}, p ∈ aerase l k → p ∈ l := by
  intro l
  induction l with
  | nil => intro h; simp [aerase] at h
  | cons q t ih =>
    intro h
    obtain ⟨k₀, v₀⟩ := q
    by_cases h₀ : k₀ = k
    · simp only [aerase, if_pos h₀] at h
      exact List.mem_cons_of_mem _ (ih h)
    · simp only [aerase, if_neg h₀, List.mem_cons] at h
      rcases h with h | h
      · simp [h]
      · exact List.mem_cons_of_mem _ (ih h)

theorem akeys_aerase_of_mem {k' k : String} (hne : k' ≠ k) :
    ∀ {l : List (String × α)}, k' ∈ akeys l → k' ∈ akeys (aerase l k) := by
  intro l
  induction l with
  | nil => intro hm; simp [akeys] at hm
  | cons q t ih =>
    intro hm
    obtain ⟨k₀, v₀⟩ := q
    simp only [akeys, List.map_cons, List.mem_cons] at hm
    by_cases h₀ : k₀ = k
    · subst h₀
      rcases hm with hm | hm
      · exact absurd hm hne
      · simpa [aerase] using ih hm
    · simp only [aerase, if_neg h₀, akeys, List.map_cons, List.mem_cons]
      rcases hm with hm | hm
      · exact Or.inl hm
      · exact Or.inr (ih hm)

theorem alookup_aerase_ne (l : List (String × α)) {k k' : String}
    (h : k' ≠ k) : alookup (aerase l k) k' = alookup l k' := by
  induction l with
  | nil => simp [aerase]
  | cons q t ih =>
    obtain ⟨k₀, v₀⟩ := q
    by_cases h₀ : k₀ = k
    · subst h₀
      simp [aerase, alookup, Ne.symm h, ih]
    · simp [aerase, alookup, h₀, ih]

theorem alookup_mem {k : String} {v : α} :
    ∀ {l : List (String × α)}, alookup l k = some v → (k, v) ∈ l := by
  intro l
  induction l with
  | nil => intro h; simp [alookup] at h
  | cons q t ih =>
    intro h
    obtain ⟨k₀, v₀⟩ := q
    by_cases h₀ : k₀ = k
    · subst h₀
      have hv : v₀ = v := by simpa [alookup] using h
      subst hv
      exact List.mem_cons_self _ _
    · simp only [alookup, if_neg h₀] at h
      exact List.mem_cons_of_mem _ (ih h)

theorem mem_akeys_of_alookup {l : List (String × α)} {k : String} {v : α}
    (h : alookup l k = some v) : k ∈ akeys l := by
  have := alookup_mem h
  exact List.mem_map_of_mem Prod.fst this

theorem akeys_of_isSome {l : List (String × α)} {k : String}
    (h : (alookup l k).isSome) : k ∈ akeys l := by
  rcases Option.isSome_iff_exists.mp h with ⟨v, hv⟩
  exact mem_akeys_of_alookup hv

theorem alookup_mapval (f : α → α) (l : List (String × α)) (k : String) :
    alookup (l.map (fun p => (p.1, f p.2))) k = (alookup l k).map f := by
  induction l with
  | nil => simp [alookup]
  | cons q t ih =>
    obtain ⟨k₀, v₀⟩ := q
    by_cases h₀ : k₀ = k
    · simp [alookup, h₀]
    · simp [alookup, h₀, ih]

end AList

/-! ## Topic store (embedding of `SQLiteTopicStore`, src/internal/store/sqlite.go)

The store's visible state is the `topics` table (name, latest_offset), the
`messages` table, and the in-memory `topics` cache mirroring the table.
`created_at` columns and message `key` blobs (always NULL on the raw path)
carry no information used by any claim and are omitted.  SQLite
transactions are embedded by their visible effect: a committed transaction
yields the updated state, a rolled-back one yields the original state. -/

/-- A row of the `messages` table. -/
structure Msg where
  topic : String
  offset : Int
  lastOffset : Int
  timestamp : Int
  value : List Nat
  codec : Int
deriving DecidableEq, Repr

/-- Visible state of `SQLiteTopicStore`: the two tables and the cache. -/
structure TopicStoreState where
  dbTopics : List (String × Int)
  dbMessages : List Msg
  cache : List (String × Int)
deriving DecidableEq, Repr

/-- Failure-injection points of `AppendRaw`, in source order: the
transaction `Begin`, the `INSERT INTO messages`, the
`UPDATE topics SET latest_offset`, and the `Commit`.  `none` is the
success path. -/
inductive AppendFailure where
  | none | beginTx | insert | updateLatest | commit
deriving DecidableEq, Repr

/-- Embedding of `SQLiteTopicStore.AppendRaw`.  Looks the topic up in the
cache; computes `baseOffset = latest + 1` and
`lastOffset = baseOffset + recordCount - 1`; inside one transaction
inserts the single raw row and updates `latest_offset`; only after a
successful commit updates the cache.  Every failure path runs the
deferred rollback, so it returns the original state together with the
error. -/
def appendRaw (s : TopicStoreState) (topic : String) (data : List Nat)
    (codec : Int) (recordCount : Int) (nowMs : Int) (fail : AppendFailure) :
    TopicStoreState × Except String Int :=
  match alookup s.cache topic with
  | Option.none => (s, .error ("topic not found: " ++ topic))
  | some latest =>
    let baseOffset := latest + 1
    let lastOffset := baseOffset + recordCount - 1
    match fail with
    | .beginTx => (s, .error "begin transaction failed")
    | .insert => (s, .error "insert failed")
    | .updateLatest => (s, .error "update latest_offset failed")
    | .commit => (s, .error "commit failed")
    | .none =>
      ({ dbTopics := ainsert s.dbTopics topic lastOffset
         dbMessages := s.dbMessages ++
           [{ topic := topic, offset := baseOffset, lastOffset := lastOffset,
              timestamp := nowMs, value := data, codec := codec }]
         cache := ainsert s.cache topic lastOffset },
       .ok baseOffset)

/-- Embedding of `SQLiteTopicStore.CreateTopic`: fails if the topic is
cached, otherwise inserts the row with `latest_offset = -1` and caches
it. -/
def createTopic (s : TopicStoreState) (name : String) :
    TopicStoreState × Except String Unit :=
  if (alookup s.cache name).isSome then
    (s, .error ("topic already exists: " ++ name))
  else
    ({ s with dbTopics := ainsert s.dbTopics name (-1),
              cache := ainsert s.cache name (-1) }, .ok ())

/-- Embedding of `SQLiteTopicStore.TopicExists` (cache membership). -/
def topicExists (s : TopicStoreState) (name : String) : Bool :=
  (alookup s.cache name).isSome

/-- Embedding of `SQLiteTopicStore.LatestOffset` (served from the cache). -/
def latestOffset (s : TopicStoreState) (topic : String) : Except String Int :=
  match alookup s.cache topic with
  | some latest => .ok latest
  | Option.none => .error ("topic not found: " ++ topic)

/-- Embedding of `SQLiteTopicStore.EarliestOffset`:
`SELECT MIN(offset) FROM messages WHERE topic = ?`; when the topic exists
but the minimum is NULL (no rows) the Go code returns `(0, nil)`. -/
def earliestOffset (s : TopicStoreState) (topic : String) : Except String Int :=
  if (alookup s.cache topic).isSome then
    match (s.dbMessages.filter (fun m => m.topic == topic)).map Msg.offset with
    | [] => .ok 0
    | o :: os => .ok (os.foldl min o)
  else .error ("topic not found: " ++ topic)

/-- Insertion sort by `offset`, embedding the `ORDER BY offset ASC` of the
read query (offsets are unique per topic, so ties cannot occur). -/
def insertSorted (m : Msg) : List Msg → List Msg
  | [] => [m]
  | x :: xs => if m.offset ≤ x.offset then m :: x :: xs else x :: insertSorted m xs

/-- Sort a list of message rows by ascending offset. -/
def sortByOffset : List Msg → List Msg
  | [] => []
  | x :: xs => insertSorted x (sortByOffset xs)

/-- Embedding of `SQLiteTopicStore.Read`: rows of the topic with
`last_offset >= fromOffset`, ordered by ascending `offset`, limited to
`maxRecords`. -/
def readMsgs (s : TopicStoreState) (topic : String) (fromOffset : Int)
    (maxRecords : Nat) : Except String (List Msg) :=
  if (alookup s.cache topic).isSome then
    .ok ((sortByOffset (s.dbMessages.filter
      (fun m => m.topic == topic && fromOffset ≤ m.lastOffset))).take maxRecords)
  else .error ("topic not found: " ++ topic)

/-! ## Engine produce path (src/unnamed/part_004 `Engine` and
src/internal/server/kafka.go `handleProduce`) -/

/-- Embedding of `Engine.EnsureTopic`: create the topic when missing and
auto-creation is enabled. -/
def ensureTopic (autoCreate : Bool) (s : TopicStoreState) (name : String) :
    TopicStoreState × Except String Unit :=
  if (alookup s.cache name).isSome then (s, .ok ())
  else if !autoCreate then (s, .error ("topic not found: " ++ name))
  else createTopic s name

/-- Embedding of `Engine.ProduceRaw`: ensure the topic, then `AppendRaw`. -/
def produceRaw (autoCreate : Bool) (s : TopicStoreState) (topic : String)
    (data : List Nat) (codec : Int) (recordCount : Int) (nowMs : Int)
    (fail : AppendFailure) : TopicStoreState × Except String Int :=
  match ensureTopic autoCreate s topic with
  | (s', .ok ()) => appendRaw s' topic data codec recordCount nowMs fail
  | (s', .error e) => (s', .error e)

/-- Per-partition produce result carried in the Produce response. -/
structure ProducePartResult where
  errorCode : Int
  baseOffset : Int
deriving DecidableEq, Repr

/-- Embedding of the per-partition body of `KafkaServer.handleProduce`:
extract the compression codec from the record batch's attribute bytes 21
and 22 when the batch has at least 23 bytes, then call
`Engine.ProduceRaw` with the literal record count `1`; an error maps to
`UNKNOWN_TOPIC_OR_PARTITION` (3), success to `NONE` (0) plus the base
offset. -/
def handleProducePartition (autoCreate : Bool) (s : TopicStoreState)
    (topic : String) (records : List Nat) (nowMs : Int) :
    TopicStoreState × ProducePartResult :=
  let codec : Int :=
    if records.length ≥ 23 then
      (((records.getD 21 0) % 256) * 256 + (records.getD 22 0) % 256) % 8
    else 0
  match produceRaw autoCreate s topic records codec 1 nowMs .none with
  | (s', .error _) => (s', { errorCode := 3, baseOffset := 0 })
  | (s', .ok base) => (s', { errorCode := 0, baseOffset := base })

/-! ## ListOffsets handler (src/internal/server/kafka.go
`handleListOffsets`) -/

/-- Per-partition ListOffsets response fields the handler populates. -/
structure ListOffsetsPartResult where
  errorCode : Int
  timestamp : Int
  offset : Int
deriving DecidableEq, Repr

/-- Embedding of the per-partition body of
`KafkaServer.handleListOffsets`: timestamp `-1` asks for
`LatestOffset + 1`, `-2` for `EarliestOffset`; any other timestamp leaves
the zero-valued offset with no error, exactly as the Go code does.  On
error the partition reports `UNKNOWN_TOPIC_OR_PARTITION` (3) with
zero-valued timestamp and offset. -/
def handleListOffsetsPartition (s : TopicStoreState) (topic : String)
    (timestamp : Int) : ListOffsetsPartResult :=
  let r : Except String Int :=
    if timestamp = -1 then
      match latestOffset s topic with
      | .ok v => .ok (v + 1)
      | .error e => .error e
    else if timestamp = -2 then earliestOffset s topic
    else .ok 0
  match r with
  | .error _ => { errorCode := 3, timestamp := 0, offset := 0 }
  | .ok off => { errorCode := 0, timestamp := timestamp, offset := off }

/-! ## Claims about the append path -/

/-- C1: for every existing topic, a successful `AppendRaw` with record
count `n` returns base offset `b = latest_offset + 1` and leaves
`latest_offset = b + n - 1`; consequently the base offset of the next
successful append is `b + n`. -/
theorem c1_append_base_offsets (s : TopicStoreState) (t : String) (L : Int)
    (d₁ d₂ : List Nat) (c₁ c₂ n₁ n₂ ts₁ ts₂ : Int)
    (h : alookup s.cache t = some L) :
    (appendRaw s t d₁ c₁ n₁ ts₁ .none).2 = .ok (L + 1) ∧
    alookup (appendRaw s t d₁ c₁ n₁ ts₁ .none).1.cache t = some ((L + 1) + n₁ - 1) ∧
    (appendRaw (appendRaw s t d₁ c₁ n₁ ts₁ .none).1 t d₂ c₂ n₂ ts₂ .none).2 =
      .ok ((L + 1) + n₁) := by
  refine ⟨?_, ?_, ?_⟩
  · simp [appendRaw, h]
  · simp [appendRaw, h, alookup_ainsert_self]
  · simp only [appendRaw, h, alookup_ainsert_self]
    congr 1
    omega

/-- Witness for C1 at a concrete store holding the fresh topic `"t"`. -/
def c1state : TopicStoreState :=
  { dbTopics := [("t", -1)], dbMessages := [], cache := [("t", -1)] }

theorem c1_append_base_offsets_witness :
    alookup c1state.cache "t" = some (-1) ∧
    (appendRaw c1state "t" [7] 0 10 0 .none).2 = .ok (-1 + 1) :=
  ⟨by decide, (c1_append_base_offsets c1state "t" (-1) [7] [7] 0 0 10 10 0 0
    (by decide)).1⟩

/-- C6: when `AppendRaw` on an existing topic fails at the insert, the
`latest_offset` update, or the commit, the call reports the error and the
visible state — message rows, the stored `latest_offset` row and the
in-memory cache — is exactly the state before the call. -/
theorem c6_appendRaw_failure_rollback (s : TopicStoreState) (t : String)
    (L : Int) (d : List Nat) (c n ts : Int) (fail : AppendFailure)
    (h : alookup s.cache t = some L)
    (hf : fail = .insert ∨ fail = .updateLatest ∨ fail = .commit) :
    (appendRaw s t d c n ts fail).1 = s ∧
    ∃ e, (appendRaw s t d c n ts fail).2 = .error e := by
  rcases hf with hf | hf | hf <;> subst hf
  · exact ⟨by simp [appendRaw, h], "insert failed", by simp [appendRaw, h]⟩
  · exact ⟨by simp [appendRaw, h], "update latest_offset failed",
      by simp [appendRaw, h]⟩
  · exact ⟨by simp [appendRaw, h], "commit failed", by simp [appendRaw, h]⟩

theorem c6_appendRaw_failure_rollback_witness :
    (appendRaw c1state "t" [7] 0 10 0 .insert).1 = c1state ∧
    ∃ e, (appendRaw c1state "t" [7] 0 10 0 .insert).2 = .error e :=
  c6_appendRaw_failure_rollback c1state "t" (-1) [7] 0 10 0 .insert
    (by decide) (Or.inl rfl)

/-- Stand-in bytes of a producer record batch carrying ten logical
records; `handleProduce` never inspects the record count inside the
batch, so only the length matters to the embedding. -/
def c2Batch : List Nat := List.replicate 100 7

/-- The store after creating topic `"t"` and handling `k` Produce
partitions, each carrying `c2Batch`. -/
def c2State : Nat → TopicStoreState
  | 0 => (createTopic { dbTopics := [], dbMessages := [], cache := [] } "t").1
  | k + 1 => (handleProducePartition true (c2State k) "t" c2Batch 0).1

/-- C2: after ten Produce requests each carrying one ten-record batch the
spec expects `latest_offset = 99` and a fetch at offset 50 to return
offsets 50..99; the code passes the literal record count 1 to
`ProduceRaw`, so `latest_offset` is 9 and the read at offset 50 finds no
rows at all. -/
theorem c2_ten_batches_latest_is_nine :
    latestOffset (c2State 10) "t" = .ok 9 ∧ (9 : Int) ≠ 99 ∧
    readMsgs (c2State 10) "t" 50 100 = .ok [] := by
  refine ⟨rfl, by decide, rfl⟩

/-- C10: an existing topic with no message rows reports earliest offset 0
with no error, and a ListOffsets partition with timestamp -2 answers
`NONE` with offset 0. -/
theorem c10_empty_topic_earliest_zero (s : TopicStoreState) (t : String)
    (h1 : (alookup s.cache t).isSome)
    (h2 : s.dbMessages.filter (fun m => m.topic == t) = []) :
    earliestOffset s t = .ok 0 ∧
    handleListOffsetsPartition s t (-2) =
      { errorCode := 0, timestamp := -2, offset := 0 } := by
  have he : earliestOffset s t = .ok 0 := by
    simp [earliestOffset, h1, h2]
  refine ⟨he, ?_⟩
  simp [handleListOffsetsPartition, he]

theorem c10_empty_topic_earliest_zero_witness :
    (alookup c1state.cache "t").isSome ∧
    earliestOffset c1state "t" = .ok 0 :=
  ⟨by decide, (c10_empty_topic_earliest_zero c1state "t" (by decide) (by decide)).1⟩

/-! ## Group store (embedding of `SQLiteGroupStore`, src/internal/store/sqlite.go)

Groups live in an in-memory map kept in lockstep with the database; the
embedding models the map.  `CreatedAt`/`UpdatedAt` timestamps carry no
information used by any claim and are omitted.  Where the Go code
iterates a map to pick an arbitrary element (leader promotion), the
embedding picks the first binding of the association list — one
admissible resolution of that nondeterminism. -/

/-- A consumer-group member (store `Member`). -/
structure Member where
  id : String
  clientID : String
  lastHeartbeat : Int
  metadata : List Nat
  assignment : List Nat
deriving DecidableEq, Repr

/-- A consumer group (store `Group`). -/
structure Group where
  id : String
  state : String
  generation : Int
  leaderID : String
  protocol : String
  members : List (String × Member)
  offsets : List (String × Int)
deriving DecidableEq, Repr

/-- The group store's state: the map from group id to group. -/
abbrev GroupStoreState := List (String × Group)

/-- The group row `GetOrCreateGroup` inserts:
`(id, 'empty', 0, NULL leader, NULL protocol)`. -/
def freshGroup (groupID : String) : Group :=
  { id := groupID, state := "empty", generation := 0, leaderID := "",
    protocol := "", members := [], offsets := [] }

/-- Embedding of `SQLiteGroupStore.GetOrCreateGroup`. -/
def getOrCreateGroup (st : GroupStoreState) (groupID : String) : GroupStoreState :=
  if (alookup st groupID).isSome then st
  else ainsert st groupID (freshGroup groupID)

/-- First key of a member map — the embedding of `for id := range members`
followed by an immediate `break`. -/
def headKey : List (String × Member) → String
  | [] => ""
  | p :: _ => p.1

/-- Per-group effect of `SQLiteGroupStore.AddMember`: insert the member
with a fresh heartbeat and no assignment; if the map then has exactly one
member it becomes the leader; an `empty` group moves to `forming`. -/
def addMemberG (g : Group) (memberID clientID : String) (metadata : List Nat)
    (nowMs : Int) : Group :=
  let members' := ainsert g.members memberID
    { id := memberID, clientID := clientID, lastHeartbeat := nowMs,
      metadata := metadata, assignment := [] }
  { g with members := members',
           leaderID := if members'.length = 1 then memberID else g.leaderID,
           state := if g.state = "empty" then "forming" else g.state }

/-- Embedding of `SQLiteGroupStore.AddMember` (missing group: error, no
state change). -/
def addMember (st : GroupStoreState) (groupID memberID clientID : String)
    (metadata : List Nat) (nowMs : Int) : GroupStoreState :=
  match alookup st groupID with
  | Option.none => st
  | some g => ainsert st groupID (addMemberG g memberID clientID metadata nowMs)

/-- Per-group effect of `SQLiteGroupStore.RemoveMember`: delete the
member; if members remain and the leader left, promote one of them; if
none remain the state reverts to `empty` and the leader is cleared. -/
def removeMemberG (g : Group) (memberID : String) : Group :=
  let members' := aerase g.members memberID
  if members' = [] then
    { g with members := members', state := "empty", leaderID := "" }
  else
    { g with members := members',
             leaderID := if g.leaderID = memberID then headKey members'
                         else g.leaderID }

/-- Embedding of `SQLiteGroupStore.RemoveMember`. -/
def removeMember (st : GroupStoreState) (groupID memberID : String) :
    GroupStoreState :=
  match alookup st groupID with
  | Option.none => st
  | some g => ainsert st groupID (removeMemberG g memberID)

/-- Per-group effect of `SQLiteGroupStore.UpdateHeartbeat` (missing
member: error, no change). -/
def updateHeartbeatG (g : Group) (memberID : String) (nowMs : Int) : Group :=
  match alookup g.members memberID with
  | Option.none => g
  | some m =>
    { g with members := ainsert g.members memberID { m with lastHeartbeat := nowMs } }

/-- Embedding of `SQLiteGroupStore.UpdateHeartbeat`. -/
def updateHeartbeat (st : GroupStoreState) (groupID memberID : String)
    (nowMs : Int) : GroupStoreState :=
  match alookup st groupID with
  | Option.none => st
  | some g => ainsert st groupID (updateHeartbeatG g memberID nowMs)

/-- Per-group effect of `SQLiteGroupStore.SetMemberAssignment`. -/
def setMemberAssignmentG (g : Group) (memberID : String)
    (assignment : List Nat) : Group :=
  match alookup g.members memberID with
  | Option.none => g
  | some m =>
    { g with members := ainsert g.members memberID { m with assignment := assignment } }

/-- Embedding of `SQLiteGroupStore.SetMemberAssignment`. -/
def setMemberAssignment (st : GroupStoreState) (groupID memberID : String)
    (assignment : List Nat) : GroupStoreState :=
  match alookup st groupID with
  | Option.none => st
  | some g => ainsert st groupID (setMemberAssignmentG g memberID assignment)

/-- Per-group effect of `SQLiteGroupStore.IncrementGeneration`:
`generation++` and state forced to `stable`, unconditionally. -/
def incrementGenerationG (g : Group) : Group :=
  { g with generation := g.generation + 1, state := "stable" }

/-- Embedding of `SQLiteGroupStore.IncrementGeneration`. -/
def incrementGeneration (st : GroupStoreState) (groupID : String) :
    GroupStoreState :=
  match alookup st groupID with
  | Option.none => st
  | some g => ainsert st groupID (incrementGenerationG g)

/-- Embedding of `SQLiteGroupStore.CommitOffset`. -/
def commitOffset (st : GroupStoreState) (groupID topic : String)
    (offset : Int) : GroupStoreState :=
  match alookup st groupID with
  | Option.none => st
  | some g => ainsert st groupID { g with offsets := ainsert g.offsets topic offset }

/-- Per-group effect of `SQLiteGroupStore.ExpireMembers`: delete every
member whose `last_heartbeat` is strictly before the cutoff; when at
least one was deleted, an emptied group reverts to `empty` with the
leader cleared, and a surviving group whose leader was deleted promotes a
remaining member. -/
def expireGroup (cutoff : Int) (g : Group) : Group :=
  let stale := g.members.filter (fun p => decide (p.2.lastHeartbeat < cutoff))
  let keep := g.members.filter (fun p => !decide (p.2.lastHeartbeat < cutoff))
  if stale = [] then g
  else if keep = [] then { g with members := keep, state := "empty", leaderID := "" }
  else if (alookup keep g.leaderID).isNone then
    { g with members := keep, leaderID := headKey keep }
  else { g with members := keep }

/-- Embedding of `SQLiteGroupStore.ExpireMembers` over the whole store
with `cutoff = now - timeout`. -/
def expireMembers (st : GroupStoreState) (timeoutMs nowMs : Int) :
    GroupStoreState :=
  st.map (fun p => (p.1, expireGroup (nowMs - timeoutMs) p.2))

/-- Embedding of `SQLiteGroupStore.DeleteGroup`. -/
def deleteGroup (st : GroupStoreState) (groupID : String) : GroupStoreState :=
  aerase st groupID

/-- Embedding of `MemberExpirationScheduler.Start`'s tick interval:
`session_timeout / 3`, floored at one second (milliseconds). -/
def expiryIntervalMs (sessionTimeoutMs : Int) : Int :=
  if sessionTimeoutMs / 3 < 1000 then 1000 else sessionTimeoutMs / 3

/-- Embedding of `MemberExpirationScheduler.expire`
(src/unnamed/part_004): the body is an empty placeholder — its own
comment says it "would call groupStore.ExpireMembers" but does not — so
each firing of the scheduler leaves the group store untouched. -/
def memberExpirationTick (st : GroupStoreState) : GroupStoreState := st

/-! ## Group invariants (spec section 3, "Group") -/

/-- The member-id set of a group. -/
def memberKeys (g : Group) : List String := akeys g.members

/-- Invariant `leader_id ∈ members ∨ leader_id = ""`. -/
def leaderInv (g : Group) : Prop :=
  g.leaderID = "" ∨ g.leaderID ∈ memberKeys g

/-- Invariant `state = empty ⇔ members = ∅`. -/
def stateInv (g : Group) : Prop := g.state = "empty" ↔ g.members = []

/-- Both per-group invariants. -/
def groupInv (g : Group) : Prop := leaderInv g ∧ stateInv g

/-- Every group in the store satisfies the invariants. -/
def storeInv (st : GroupStoreState) : Prop := ∀ p ∈ st, groupInv p.2

instance (g : Group) : Decidable (leaderInv g) := by
  unfold leaderInv; infer_instance

instance (g : Group) : Decidable (stateInv g) := by
  unfold stateInv; infer_instance

instance (g : Group) : Decidable (groupInv g) := by
  unfold groupInv; infer_instance

instance (st : GroupStoreState) : Decidable (storeInv st) := by
  unfold storeInv; infer_instance

/-- Generation never decreases across a transition: any group present
before and after has a generation at least as large afterwards. -/
def genMono (st st' : GroupStoreState) : Prop :=
  ∀ gid g g', alookup st gid = some g → alookup st' gid = some g' →
    g.generation ≤ g'.generation

/-! ## JoinGroup handler (src/internal/server/kafka.go `handleJoinGroup`) -/

/-- The abstract fields `handleJoinGroup` writes into its response
(version-dependent placement aside). -/
structure JoinGroupResponse where
  errorCode : Int
  generationID : Int
  protocolType : String
  protocolName : String
  leader : String
  memberID : String
  members : List (String × List Nat)
deriving DecidableEq, Repr

/-- The metadata echoed in the response's members array: the first
advertised protocol's metadata (`firstMetadata` in the source, nil when
no protocol is advertised). -/
def joinFirstMetadata : List (String × List Nat) → List Nat
  | [] => []
  | (_, m) :: _ => m

/-- Embedding of `KafkaServer.handleJoinGroup`: allocate a member id when
the request's is empty (`groupID-nanotime`), then answer error `NONE`,
the literal generation `1`, the first advertised protocol name, this
member as leader, and a members array holding only this member with the
first protocol's metadata.  The handler performs no engine or store call,
so the group store passes through unchanged. -/
def handleJoinGroup (groupID memberID protocolType : String)
    (protocols : List (String × List Nat)) (nowNano : Int)
    (st : GroupStoreState) : JoinGroupResponse × GroupStoreState :=
  let mid := if memberID = "" then groupID ++ "-" ++ toString nowNano
             else memberID
  ({ errorCode := 0, generationID := 1, protocolType := protocolType,
     protocolName := match protocols with | [] => "" | (n, _) :: _ => n,
     leader := mid, memberID := mid,
     members := [(mid, joinFirstMetadata protocols)] }, st)

/-! ## Invariant preservation lemmas -/

theorem alookup_aerase_self {α : Type} (l : List (String × α)) (k : String) :
    alookup (aerase l k) k = Option.none := by
  induction l with
  | nil => rfl
  | cons q t ih =>
    obtain ⟨k₀, v₀⟩ := q
    by_cases h₀ : k₀ = k
    · simp [aerase, h₀, ih]
    · simp [aerase, alookup, h₀, ih]

theorem groupInv_fresh (groupID : String) : groupInv (freshGroup groupID) :=
  ⟨Or.inl rfl, iff_of_true rfl rfl⟩

theorem storeInv_ainsert {st : GroupStoreState} {gid : String} {g : Group}
    (hst : storeInv st) (hg : groupInv g) : storeInv (ainsert st gid g) := by
  intro p hp
  rcases mem_ainsert hp with h | h
  · rw [h]; exact hg
  · exact hst p h

theorem genMono_refl (st : GroupStoreState) : genMono st st := by
  intro gid g g' h h'
  rw [h] at h'
  injection h' with hh
  cases hh
  exact le_refl _

theorem genMono_update {st : GroupStoreState} {gid : String} {g g' : Group}
    (hl : alookup st gid = some g) (hgen : g.generation ≤ g'.generation) :
    genMono st (ainsert st gid g') := by
  intro k a a' ha ha'
  by_cases hk : k = gid
  · subst hk
    rw [alookup_ainsert_self] at ha'
    rw [hl] at ha
    injection ha with h1
    injection ha' with h2
    cases h1
    cases h2
    exact hgen
  · rw [alookup_ainsert_ne st _ hk] at ha'
    rw [ha] at ha'
    injection ha' with h2
    cases h2
    exact le_refl _

theorem genMono_insert_new {st : GroupStoreState} {gid : String} {g : Group}
    (hl : alookup st gid = Option.none) : genMono st (ainsert st gid g) := by
  intro k a a' ha ha'
  by_cases hk : k = gid
  · subst hk
    rw [hl] at ha
    cases ha
  · rw [alookup_ainsert_ne st _ hk] at ha'
    rw [ha] at ha'
    injection ha' with h2
    cases h2
    exact le_refl _

theorem headKey_mem {l : List (String × Member)} (h : l ≠ []) :
    headKey l ∈ akeys l := by
  cases l with
  | nil => exact absurd rfl h
  | cons p t => simp [headKey, akeys]

theorem members_ne_nil_of_lookup {g : Group} {mid : String} {m : Member}
    (h : alookup g.members mid = some m) : g.members ≠ [] := by
  intro hnil
  rw [hnil] at h
  simp [alookup] at h

theorem groupInv_addMemberG {g : Group} (hg : groupInv g)
    (memberID clientID : String) (metadata : List Nat) (nowMs : Int) :
    groupInv (addMemberG g memberID clientID metadata nowMs) := by
  obtain ⟨hl, hs⟩ := hg
  constructor
  · simp only [addMemberG, leaderInv, memberKeys]
    split
    · exact Or.inr (self_mem_akeys_ainsert _ _ _)
    · rcases hl with h | h
      · exact Or.inl h
      · exact Or.inr (akeys_ainsert_of_mem _ _ h)
  · simp only [addMemberG, stateInv]
    refine iff_of_false ?_ (ainsert_ne_nil _ _ _)
    split
    · decide
    · intro hstate
      rename_i hne
      exact hne hstate

theorem addMemberG_generation (g : Group) (memberID clientID : String)
    (metadata : List Nat) (nowMs : Int) :
    (addMemberG g memberID clientID metadata nowMs).generation = g.generation := rfl

theorem groupInv_removeMemberG {g : Group} (hg : groupInv g) (memberID : String) :
    groupInv (removeMemberG g memberID) := by
  obtain ⟨hl, hs⟩ := hg
  simp only [removeMemberG]
  split
  case isTrue hnil => exact ⟨Or.inl rfl, iff_of_true rfl hnil⟩
  case isFalse hne =>
    constructor
    · simp only [leaderInv, memberKeys]
      split
      · exact Or.inr (headKey_mem hne)
      case isFalse hneq =>
        rcases hl with h | h
        · exact Or.inl h
        · exact Or.inr (akeys_aerase_of_mem hneq h)
    · simp only [stateInv]
      refine iff_of_false ?_ hne
      intro hstate
      have h0 : g.members = [] := hs.mp hstate
      rw [h0] at hne
      exact hne rfl

theorem removeMemberG_generation (g : Group) (memberID : String) :
    (removeMemberG g memberID).generation = g.generation := by
  simp only [removeMemberG]
  split <;> rfl

theorem groupInv_memberUpdate {g : Group} (hg : groupInv g) {memberID : String}
    {m : Member} (hm : alookup g.members memberID = some m) (m' : Member) :
    groupInv { g with members := ainsert g.members memberID m' } := by
  obtain ⟨hl, hs⟩ := hg
  constructor
  · simp only [leaderInv, memberKeys]
    rcases hl with h | h
    · exact Or.inl h
    · exact Or.inr (akeys_ainsert_of_mem _ _ h)
  · simp only [stateInv]
    refine iff_of_false ?_ (ainsert_ne_nil _ _ _)
    intro hstate
    exact members_ne_nil_of_lookup hm (hs.mp hstate)

theorem groupInv_updateHeartbeatG {g : Group} (hg : groupInv g)
    (memberID : String) (nowMs : Int) :
    groupInv (updateHeartbeatG g memberID nowMs) := by
  unfold updateHeartbeatG
  cases hm : alookup g.members memberID with
  | none => exact hg
  | some m => exact groupInv_memberUpdate hg hm _

theorem updateHeartbeatG_generation (g : Group) (memberID : String) (nowMs : Int) :
    (updateHeartbeatG g memberID nowMs).generation = g.generation := by
  unfold updateHeartbeatG
  cases alookup g.members memberID <;> rfl

theorem groupInv_setMemberAssignmentG {g : Group} (hg : groupInv g)
    (memberID : String) (assignment : List Nat) :
    groupInv (setMemberAssignmentG g memberID assignment) := by
  unfold setMemberAssignmentG
  cases hm : alookup g.members memberID with
  | none => exact hg
  | some m => exact groupInv_memberUpdate hg hm _

theorem setMemberAssignmentG_generation (g : Group) (memberID : String)
    (assignment : List Nat) :
    (setMemberAssignmentG g memberID assignment).generation = g.generation := by
  unfold setMemberAssignmentG
  cases alookup g.members memberID <;> rfl

theorem groupInv_commitOffsetG {g : Group} (hg : groupInv g) (topic : String)
    (offset : Int) :
    groupInv { g with offsets := ainsert g.offsets topic offset } := hg

theorem leaderInv_incrementGenerationG {g : Group} (hl : leaderInv g) :
    leaderInv (incrementGenerationG g) := hl

theorem groupInv_incrementGenerationG {g : Group} (hg : groupInv g)
    (hne : g.members ≠ []) : groupInv (incrementGenerationG g) := by
  refine ⟨hg.1, iff_of_false ?_ hne⟩
  show ¬("stable" = "empty")
  decide

theorem groupInv_expireGroup {g : Group} (hg : groupInv g) (cutoff : Int) :
    groupInv (expireGroup cutoff g) := by
  obtain ⟨hl, hs⟩ := hg
  simp only [expireGroup]
  split
  · exact ⟨hl, hs⟩
  case isFalse hstale =>
    split
    case isTrue hkeep => exact ⟨Or.inl rfl, iff_of_true rfl hkeep⟩
    case isFalse hkeep =>
      have hstate : g.state ≠ "empty" := by
        intro hstate
        have h0 : g.members = [] := hs.mp hstate
        rw [h0] at hkeep
        exact hkeep rfl
      split
      · constructor
        · exact Or.inr (headKey_mem hkeep)
        · exact iff_of_false hstate hkeep
      case isFalse hlook =>
        constructor
        · simp only [leaderInv, memberKeys]
          cases hv : alookup (g.members.filter
              (fun p => !decide (p.2.lastHeartbeat < cutoff))) g.leaderID with
          | none => rw [hv] at hlook; exact absurd rfl hlook
          | some v => exact Or.inr (mem_akeys_of_alookup hv)
        · exact iff_of_false hstate hkeep

theorem expireGroup_generation (cutoff : Int) (g : Group) :
    (expireGroup cutoff g).generation = g.generation := by
  simp only [expireGroup]
  split
  · rfl
  · split
    · rfl
    · split <;> rfl

/-! ## Claims about the group store -/

/-- The store after `GetOrCreateGroup` on an empty store: one fresh,
memberless group `"g"` — a state reachable by a single group-store
operation. -/
def c4state : GroupStoreState := getOrCreateGroup [] "g"

/-- C4 counterexample: `IncrementGeneration` applied to the reachable,
invariant-satisfying store holding a fresh memberless group produces a
group with state `"stable"` and no members, violating
`state = empty ⇔ members = ∅`. -/
theorem c4_incrementGeneration_counterexample :
    storeInv c4state ∧ ¬ storeInv (incrementGeneration c4state "g") := by
  constructor
  · intro p hp
    have : p = ("g", freshGroup "g") := by
      simpa [c4state, getOrCreateGroup, alookup, ainsert] using hp
    rw [this]
    exact groupInv_fresh "g"
  · intro hinv
    have hmem : ("g", incrementGenerationG (freshGroup "g")) ∈
        incrementGeneration c4state "g" := by
      simp [c4state, getOrCreateGroup, incrementGeneration, alookup, ainsert]
    have := (hinv _ hmem).2
    simp [incrementGenerationG, freshGroup, stateInv] at this

/-- C4 as amended: every group-store operation preserves the leader
invariant and never decreases any group's generation; every operation
except increment-generation also preserves `state = empty ⇔ members = ∅`;
increment-generation preserves it exactly when the target group has at
least one member (on a memberless group it forces state `"stable"`,
breaking the equivalence, as the counterexample shows). -/
theorem c4_group_invariants_amended (st : GroupStoreState) (hst : storeInv st) :
    (∀ gid, storeInv (getOrCreateGroup st gid) ∧
      genMono st (getOrCreateGroup st gid)) ∧
    (∀ gid mid cid md now, storeInv (addMember st gid mid cid md now) ∧
      genMono st (addMember st gid mid cid md now)) ∧
    (∀ gid mid, storeInv (removeMember st gid mid) ∧
      genMono st (removeMember st gid mid)) ∧
    (∀ gid mid now, storeInv (updateHeartbeat st gid mid now) ∧
      genMono st (updateHeartbeat st gid mid now)) ∧
    (∀ gid mid a, storeInv (setMemberAssignment st gid mid a) ∧
      genMono st (setMemberAssignment st gid mid a)) ∧
    (∀ gid topic off, storeInv (commitOffset st gid topic off) ∧
      genMono st (commitOffset st gid topic off)) ∧
    (∀ timeout now, storeInv (expireMembers st timeout now) ∧
      genMono st (expireMembers st timeout now)) ∧
    (∀ gid, storeInv (deleteGroup st gid) ∧ genMono st (deleteGroup st gid)) ∧
    (∀ gid, genMono st (incrementGeneration st gid) ∧
      (∀ p ∈ incrementGeneration st gid, leaderInv p.2) ∧
      (∀ g, alookup st gid = some g → g.members ≠ [] →
        storeInv (incrementGeneration st gid))) := by
  refine ⟨?_, ?_, ?_, ?_, ?_, ?_, ?_, ?_, ?_⟩
  · intro gid
    unfold getOrCreateGroup
    by_cases h : (alookup st gid).isSome
    · rw [if_pos h]
      exact ⟨hst, genMono_refl st⟩
    · rw [if_neg h]
      refine ⟨storeInv_ainsert hst (groupInv_fresh gid), genMono_insert_new ?_⟩
      exact Option.not_isSome_iff_eq_none.mp h
  · intro gid mid cid md now
    cases hl : alookup st gid with
    | none => simp only [addMember, hl]; exact ⟨hst, genMono_refl st⟩
    | some g =>
      simp only [addMember, hl]
      have hg := hst _ (alookup_mem hl)
      exact ⟨storeInv_ainsert hst (groupInv_addMemberG hg mid cid md now),
        genMono_update hl (le_of_eq (addMemberG_generation g mid cid md now).symm)⟩
  · intro gid mid
    cases hl : alookup st gid with
    | none => simp only [removeMember, hl]; exact ⟨hst, genMono_refl st⟩
    | some g =>
      simp only [removeMember, hl]
      have hg := hst _ (alookup_mem hl)
      exact ⟨storeInv_ainsert hst (groupInv_removeMemberG hg mid),
        genMono_update hl (le_of_eq (removeMemberG_generation g mid).symm)⟩
  · intro gid mid now
    cases hl : alookup st gid with
    | none => simp only [updateHeartbeat, hl]; exact ⟨hst, genMono_refl st⟩
    | some g =>
      simp only [updateHeartbeat, hl]
      have hg := hst _ (alookup_mem hl)
      exact ⟨storeInv_ainsert hst (groupInv_updateHeartbeatG hg mid now),
        genMono_update hl (le_of_eq (updateHeartbeatG_generation g mid now).symm)⟩
  · intro gid mid a
    cases hl : alookup st gid with
    | none => simp only [setMemberAssignment, hl]; exact ⟨hst, genMono_refl st⟩
    | some g =>
      simp only [setMemberAssignment, hl]
      have hg := hst _ (alookup_mem hl)
      exact ⟨storeInv_ainsert hst (groupInv_setMemberAssignmentG hg mid a),
        genMono_update hl (le_of_eq (setMemberAssignmentG_generation g mid a).symm)⟩
  · intro gid topic off
    cases hl : alookup st gid with
    | none => simp only [commitOffset, hl]; exact ⟨hst, genMono_refl st⟩
    | some g =>
      simp only [commitOffset, hl]
      have hg := hst _ (alookup_mem hl)
      exact ⟨storeInv_ainsert hst (groupInv_commitOffsetG hg topic off),
        genMono_update hl (le_refl _)⟩
  · intro timeout now
    constructor
    · intro p hp
      rcases List.mem_map.mp hp with ⟨q, hq, rfl⟩
      exact groupInv_expireGroup (hst q hq) _
    · intro gid g g' h h'
      rw [expireMembers, alookup_mapval] at h'
      rw [h] at h'
      injection h' with h2
      rw [← h2, expireGroup_generation]
  · intro gid
    constructor
    · intro p hp
      exact hst p (mem_aerase hp)
    · intro gid' g g' h h'
      by_cases hk : gid' = gid
      · subst hk
        rw [deleteGroup, alookup_aerase_self] at h'
        cases h'
      · rw [deleteGroup, alookup_aerase_ne st hk] at h'
        rw [h] at h'
        injection h' with h2
        cases h2
        exact le_refl _
  · intro gid
    cases hl : alookup st gid with
    | none =>
      refine ⟨by simp only [incrementGeneration, hl]; exact genMono_refl st, ?_, ?_⟩
      · simp only [incrementGeneration, hl]
        exact fun p hp => (hst p hp).1
      · intro g hg
        cases hg
    | some g =>
      have hg := hst _ (alookup_mem hl)
      refine ⟨?_, ?_, ?_⟩
      · simp only [incrementGeneration, hl]
        exact genMono_update hl (show g.generation ≤ g.generation + 1 by omega)
      · simp only [incrementGeneration, hl]
        intro p hp
        rcases mem_ainsert hp with h | h
        · rw [h]
          exact leaderInv_incrementGenerationG hg.1
        · exact (hst p h).1
      · intro g₂ hg₂ hne
        injection hg₂ with he
        cases he
        simp only [incrementGeneration, hl]
        exact storeInv_ainsert hst (groupInv_incrementGenerationG hg hne)

theorem c4_group_invariants_amended_witness :
    storeInv c4state ∧ storeInv (addMember c4state "g" "m" "c" [] 5) :=
  ⟨by decide,
   ((c4_group_invariants_amended c4state (by decide)).2.1 "g" "m" "c" [] 5).1⟩

/-- A store with group `"g"` holding the single member `"m"` whose last
heartbeat is at time 0 — reachable via get-or-create followed by
add-member. -/
def c5state : GroupStoreState := addMember (getOrCreateGroup [] "g") "g" "m" "c" [] 0

/-- C5: with a 30 s session timeout and the clock at 31 s, member `"m"`
(last heartbeat 0) is overdue and a store-level `ExpireMembers` sweep
would delete it, but the member-expiry scheduler's firing
(`MemberExpirationScheduler.expire`) is an empty placeholder and deletes
nothing. -/
theorem c5_expiry_tick_is_noop :
    ((alookup c5state "g").map (fun g => (alookup g.members "m").isSome)
      = some true) ∧
    memberExpirationTick c5state = c5state ∧
    ((alookup (memberExpirationTick c5state) "g").map
      (fun g => (alookup g.members "m").isSome) = some true) ∧
    ((alookup (expireMembers c5state 30000 31000) "g").map Group.members
      = some []) := by
  refine ⟨by decide, rfl, by decide, by decide⟩

/-! ## Claims about the JoinGroup handler -/

/-- A reachable store whose group `"g"` has generation 5 and no members:
get-or-create followed by five increment-generation calls. -/
def c3state : GroupStoreState :=
  incrementGeneration (incrementGeneration (incrementGeneration
    (incrementGeneration (incrementGeneration
      (getOrCreateGroup [] "g") "g") "g") "g") "g") "g"

/-- C3 counterexample: a JoinGroup request for group `"g"` with an empty
member id leaves the group store untouched — no member is added anywhere
— and the response carries the literal generation 1 even though the
group's generation is 5. -/
theorem c3_joinGroup_counterexample :
    (handleJoinGroup "g" "" "consumer" [("range", [1])] 7 c3state).2 = c3state ∧
    (alookup c3state "g").map Group.members = some [] ∧
    (alookup c3state "g").map Group.generation = some 5 ∧
    (handleJoinGroup "g" "" "consumer" [("range", [1])] 7 c3state).1.generationID
      = 1 := by
  refine ⟨rfl, by decide, by decide, rfl⟩

/-- C3 as amended: `handleJoinGroup` allocates a member id exactly when
the request's is empty, echoes error `NONE`, the literal generation 1,
the first advertised protocol name, this member as leader, and a members
array holding only this member with the first protocol's metadata; it
adds no member to any group — the group store is unchanged. -/
theorem c3_joinGroup_amended (groupID memberID protocolType : String)
    (protocols : List (String × List Nat)) (nowNano : Int)
    (st : GroupStoreState) :
    (handleJoinGroup groupID memberID protocolType protocols nowNano st).2 = st ∧
    ((handleJoinGroup groupID memberID protocolType protocols nowNano st).1 =
      { errorCode := 0, generationID := 1, protocolType := protocolType,
        protocolName := match protocols with | [] => "" | (n, _) :: _ => n,
        leader := if memberID = "" then groupID ++ "-" ++ toString nowNano
                  else memberID,
        memberID := if memberID = "" then groupID ++ "-" ++ toString nowNano
                    else memberID,
        members := [(if memberID = "" then groupID ++ "-" ++ toString nowNano
                     else memberID, joinFirstMetadata protocols)] }) :=
  ⟨rfl, rfl⟩

/-! ## Varint codec (embedding of `Encoder.WriteVarInt` /
`Decoder.ReadVarInt`, src/internal/protocol/codec.go)

Go `int64`/`uint64` values are carried as their two's-complement bit
patterns in `Nat` below `2^64`; every operation masks with `% 2^64`
exactly where the 64-bit machine word wraps. -/

/-- Two's-complement 64-bit pattern of an `int64` value. -/
def toUInt64rep (n : Int) : Nat := (n % (2 ^ 64 : Int)).toNat

/-- The `int64` value of a 64-bit pattern. -/
def toInt64val (w : Nat) : Int :=
  if w < 2 ^ 63 then (w : Nat) else (w : Int) - 2 ^ 64

/-- One round of `Encoder.WriteUVarInt`'s loop per fuel unit: while
`v >= 0x80` emit `byte(v)|0x80` and shift right by 7.  Ten bytes always
suffice for `v < 2^64`, so the fuel of 10 used below never runs out on
the codec's domain. -/
def writeUVarIntFuel : Nat → Nat → List Nat
  | 0, v => [v % 256]
  | fuel + 1, v =>
    if v ≥ 128 then Nat.lor (v % 256) 128 :: writeUVarIntFuel fuel (v / 128)
    else [v]

/-- Embedding of `Encoder.WriteUVarInt` for `v < 2^64`. -/
def writeUVarInt (v : Nat) : List Nat := writeUVarIntFuel 10 v

/-- Embedding of `Encoder.WriteVarInt`: zigzag
`uv = uint64((v << 1) ^ (v >> 63))` (left shift wraps, right shift is
arithmetic — all ones for negative `v`), then the unsigned varint. -/
def writeVarInt (n : Int) : List Nat :=
  let w := toUInt64rep n
  writeUVarInt (Nat.xor ((w * 2) % 2 ^ 64) (if w < 2 ^ 63 then 0 else 2 ^ 64 - 1))

/-- The loop shared by `Decoder.ReadUVarInt` and `Decoder.ReadVarInt`:
per byte, OR `int64(b&0x7F) << shift` into the accumulator (the 64-bit
word truncates) and stop when the high bit is clear; reading past the end
of input is an error. -/
def readUVarIntLoop : List Nat → Nat → Nat → Option (Nat × List Nat)
  | [], _, _ => Option.none
  | b :: rest, shift, acc =>
    let b' := b % 256
    let acc' := Nat.lor acc (Nat.shiftLeft (b' % 128) shift % 2 ^ 64)
    if b' < 128 then some (acc', rest)
    else readUVarIntLoop rest (shift + 7) acc'

/-- Embedding of `Decoder.ReadUVarInt`. -/
def readUVarIntS (l : List Nat) : Option (Nat × List Nat) := readUVarIntLoop l 0 0

/-- The `value >> 1` of `Decoder.ReadVarInt`: an ARITHMETIC shift on the
`int64` accumulator — the top bit is copied, not cleared. -/
def sar1of64 (w : Nat) : Nat := w / 2 + (if w < 2 ^ 63 then 0 else 2 ^ 63)

/-- Two's-complement negation `-(value & 1)`: all ones when the low bit
is set. -/
def neg64 (x : Nat) : Nat := (2 ^ 64 - x) % 2 ^ 64

/-- The `(value >> 1) ^ -(value & 1)` zigzag decode of
`Decoder.ReadVarInt`. -/
def zigzagDecode (w : Nat) : Nat := Nat.xor (sar1of64 w) (neg64 (w % 2))

/-- Embedding of `Decoder.ReadVarInt`: the unsigned loop followed by the
zigzag decode. -/
def readVarInt (bytes : List Nat) : Option (Int × List Nat) :=
  (readUVarIntLoop bytes 0 0).map (fun p => (toInt64val (zigzagDecode p.1), p.2))

/-- C8: the zigzag round-trip fails at `n = 2^62`: the encoder emits the
varint of `2^63`, and the decoder's ARITHMETIC right shift
(`value >> 1` on `int64`) sign-extends it, yielding `-2^62` instead of
`2^62`.  (The claim asserts the round-trip returns `n` for every `int64`
`n`.) -/
theorem c8_zigzag_roundtrip_fails :
    readVarInt (writeVarInt 4611686018427387904) =
      some (-4611686018427387904, []) ∧
    (-4611686018427387904 : Int) ≠ 4611686018427387904 := by
  exact ⟨rfl, by decide⟩

/-! ## Pending-fetch queue (embedding of `PendingQueue.Process`,
src/unnamed/part_005) -/

/-- A parked fetch request.  The connection handle becomes an id; the
single-shot result channel becomes the returned delivery. -/
structure PendingFetch where
  connID : Nat
  correlationID : Int
  topic : String
  partition : Int
  offset : Int
  maxBytes : Int
  deadlineMs : Int
deriving DecidableEq, Repr

/-- What `Process` pushes into an entry's result channel. -/
inductive FetchDelivery where
  | emptyResult
  | failed (e : String)
  | records (rs : List Msg)
deriving DecidableEq, Repr

/-- Per-entry body of `PendingQueue.Process`: past the deadline deliver
an empty result; otherwise read the store at the requested offset
(`maxBytes/1024` rows) — a read error is delivered and completes the
entry, a non-empty read is delivered, and an empty read leaves the entry
parked (`Option.none`). -/
def processEntry (store : TopicStoreState) (nowMs : Int) (p : PendingFetch) :
    Option FetchDelivery :=
  if nowMs > p.deadlineMs then some .emptyResult
  else
    match readMsgs store p.topic p.offset (p.maxBytes / 1024).toNat with
    | .error e => some (.failed e)
    | .ok rs => if rs.length > 0 then some (.records rs) else Option.none

/-- Embedding of `PendingQueue.Process`: walk the queue in FIFO order,
returning the entries still pending and the completed deliveries, both in
queue order. -/
def processQueue (store : TopicStoreState) (nowMs : Int) :
    List PendingFetch → List PendingFetch × List (PendingFetch × FetchDelivery)
  | [] => ([], [])
  | p :: rest =>
    let r := processQueue store nowMs rest
    match processEntry store nowMs p with
    | some d => (r.1, (p, d) :: r.2)
    | Option.none => (p :: r.1, r.2)

/-- An empty store (no topics) and an unexpired entry for a topic the
store does not know: the read errors. -/
def c9store : TopicStoreState := { dbTopics := [], dbMessages := [], cache := [] }

/-- The parked entry of the C9 counterexample: deadline 100, topic
`"x"`. -/
def c9entry : PendingFetch :=
  { connID := 0, correlationID := 1, topic := "x", partition := 0,
    offset := 0, maxBytes := 1024, deadlineMs := 100 }

/-- C9 counterexample: at time 0 (before the deadline) the read for the
unknown topic `"x"` fails; the claim says an entry with no records
available is left in place, but `Process` delivers the error and removes
it. -/
theorem c9_read_error_removes_entry :
    ¬ (0 : Int) > (100 : Int) ∧
    readMsgs c9store "x" 0 1 = .error "topic not found: x" ∧
    (processQueue c9store 0 [c9entry]).1 = [] ∧
    (processQueue c9store 0 [c9entry]).2 = [(c9entry, .failed "topic not found: x")] := by
  exact ⟨by decide, rfl, rfl, rfl⟩

/-- C9 as amended: each tick visits the parked entries in FIFO order and
treats each independently — past-deadline entries get an empty result and
are removed, a failing store read delivers the error and removes the
entry, a non-empty read delivers the records and removes it, and only an
entry whose read succeeds with no records is left in place. -/
theorem c9_process_fifo_cases (store : TopicStoreState) (now : Int)
    (q : List PendingFetch) (p : PendingFetch) :
    processQueue store now q =
      (q.filter (fun x => (processEntry store now x).isNone),
       q.filterMap (fun x => (processEntry store now x).map (fun d => (x, d)))) ∧
    (now > p.deadlineMs → processEntry store now p = some .emptyResult) ∧
    (¬ now > p.deadlineMs →
      ∀ e, readMsgs store p.topic p.offset (p.maxBytes / 1024).toNat = .error e →
        processEntry store now p = some (.failed e)) ∧
    (¬ now > p.deadlineMs →
      ∀ rs, readMsgs store p.topic p.offset (p.maxBytes / 1024).toNat = .ok rs →
        rs ≠ [] → processEntry store now p = some (.records rs)) ∧
    (¬ now > p.deadlineMs →
      readMsgs store p.topic p.offset (p.maxBytes / 1024).toNat = .ok [] →
        processEntry store now p = Option.none) := by
  refine ⟨?_, ?_, ?_, ?_, ?_⟩
  · induction q with
    | nil => rfl
    | cons x xs ih =>
      simp only [processQueue, ih, List.filter_cons, List.filterMap_cons]
      cases he : processEntry store now x with
      | none => simp [he]
      | some d => simp [he]
  · intro h
    simp [processEntry, h]
  · intro h e he
    simp [processEntry, h, he]
  · intro h rs hrs hne
    simp only [processEntry, if_neg h, hrs]
    rw [if_pos (List.length_pos.mpr hne)]
  · intro h hok
    simp [processEntry, h, hok]

theorem c9_process_fifo_cases_witness :
    (200 : Int) > 100 ∧ processEntry c9store 200 c9entry = some .emptyResult :=
  ⟨by decide, (c9_process_fifo_cases c9store 200 [] c9entry).2.1 (by decide)⟩

/-! ## Connection loop framing (embedding of
`KafkaServer.handleConnection` / `handleRequest`,
src/internal/server/kafka.go, and `Decoder.ReadHeader`,
src/internal/protocol/codec.go)

The inbound TCP stream is a byte list; `io.ReadFull` on a stream that
ends early is a read error.  Go strings decoded from the wire are kept as
their raw bytes (`string(data)` never fails). -/

/-- Embedding of `io.ReadFull` into an `n`-byte buffer: the bytes and the rest, or an
error when the stream ends first. -/
def takeExact (l : List Nat) (n : Nat) : Option (List Nat × List Nat) :=
  if n ≤ l.length then some (l.take n, l.drop n) else Option.none

/-- Big-endian unsigned value of a byte list. -/
def beUInt (bytes : List Nat) : Nat := bytes.foldl (fun a b => a * 256 + b % 256) 0

/-- Signed view `int16(binary.BigEndian.Uint16 b)`. -/
def int16ofBE (bytes : List Nat) : Int :=
  let u := beUInt bytes
  if u < 2 ^ 15 then (u : Nat) else (u : Int) - 2 ^ 16

/-- Signed view `int32(binary.BigEndian.Uint32 b)`. -/
def int32ofBE (bytes : List Nat) : Int :=
  let u := beUInt bytes
  if u < 2 ^ 31 then (u : Nat) else (u : Int) - 2 ^ 32

/-- Embedding of `Decoder.ReadInt16`. -/
def readInt16s (l : List Nat) : Option (Int × List Nat) :=
  match takeExact l 2 with
  | Option.none => Option.none
  | some (b, rest) => some (int16ofBE b, rest)

/-- Embedding of `Decoder.ReadInt32`. -/
def readInt32s (l : List Nat) : Option (Int × List Nat) :=
  match takeExact l 4 with
  | Option.none => Option.none
  | some (b, rest) => some (int32ofBE b, rest)

/-- Embedding of `Decoder.ReadString`: int16 length (negative means null,
read as empty without consuming bytes), then that many bytes. -/
def readStringS (l : List Nat) : Option (List Nat × List Nat) :=
  match readInt16s l with
  | Option.none => Option.none
  | some (len, rest) =>
    if len < 0 then some ([], rest)
    else match takeExact rest len.toNat with
      | Option.none => Option.none
      | some (d, rest') => some (d, rest')

/-- Embedding of `Decoder.ReadCompactString`: unsigned varint of
`length+1` (zero means null, read as empty), then the bytes. -/
def readCompactStringS (l : List Nat) : Option (List Nat × List Nat) :=
  match readUVarIntS l with
  | Option.none => Option.none
  | some (len, rest) =>
    if len = 0 then some ([], rest)
    else match takeExact rest (len - 1) with
      | Option.none => Option.none
      | some (d, rest') => some (d, rest')

/-- Embedding of `isFlexibleVersion` (the per-API flexible-version
thresholds from src/internal/protocol/codec.go). -/
def isFlexibleVersion (apiKey apiVersion : Int) : Bool :=
  if apiKey = 0 then apiVersion ≥ 9
  else if apiKey = 1 then apiVersion ≥ 12
  else if apiKey = 2 then apiVersion ≥ 6
  else if apiKey = 3 then apiVersion ≥ 9
  else if apiKey = 9 then apiVersion ≥ 6
  else if apiKey = 10 then apiVersion ≥ 3
  else if apiKey = 11 then apiVersion ≥ 6
  else if apiKey = 12 then apiVersion ≥ 4
  else if apiKey = 13 then apiVersion ≥ 4
  else if apiKey = 14 then apiVersion ≥ 4
  else if apiKey = 18 then apiVersion ≥ 3
  else if apiKey = 19 then apiVersion ≥ 5
  else false

/-- A decoded request header. -/
structure RequestHeader where
  apiKey : Int
  apiVersion : Int
  correlationID : Int
  clientID : List Nat
deriving DecidableEq, Repr

/-- Embedding of `Decoder.ReadHeader`: api key, api version, correlation
id, then — flexible versions — a compact client id and one varint of
tagged fields, otherwise a classic client id. -/
def readHeader (l : List Nat) : Option (RequestHeader × List Nat) :=
  match readInt16s l with
  | Option.none => Option.none
  | some (apiKey, r1) =>
    match readInt16s r1 with
    | Option.none => Option.none
    | some (apiVersion, r2) =>
      match readInt32s r2 with
      | Option.none => Option.none
      | some (corr, r3) =>
        if isFlexibleVersion apiKey apiVersion then
          match readCompactStringS r3 with
          | Option.none => Option.none
          | some (cid, r4) =>
            match readUVarIntS r4 with
            | Option.none => Option.none
            | some (_, r5) =>
              some ({ apiKey := apiKey, apiVersion := apiVersion,
                      correlationID := corr, clientID := cid }, r5)
        else
          match readStringS r3 with
          | Option.none => Option.none
          | some (cid, r4) =>
            some ({ apiKey := apiKey, apiVersion := apiVersion,
                    correlationID := corr, clientID := cid }, r4)

/-- Big-endian two's-complement int16 bytes (`Encoder.WriteInt16`). -/
def encInt16 (v : Int) : List Nat :=
  let w := (v % (2 ^ 16 : Int)).toNat
  [w / 256 % 256, w % 256]

/-- Big-endian two's-complement int32 bytes (`Encoder.WriteInt32`). -/
def encInt32 (v : Int) : List Nat :=
  let w := (v % (2 ^ 32 : Int)).toNat
  [w / 2 ^ 24 % 256, w / 2 ^ 16 % 256, w / 256 % 256, w % 256]

/-- Embedding of `KafkaServer.wrapResponse`: int32 length prefix. -/
def wrapResponse (body : List Nat) : List Nat :=
  encInt32 (body.length : Nat) ++ body

/-- Embedding of `KafkaServer.errorResponse`: header (correlation id)
plus a bare int16 error code. -/
def errorResponse (correlationID errorCode : Int) : List Nat :=
  wrapResponse (encInt32 correlationID ++ encInt16 errorCode)

/-- Embedding of `KafkaServer.handleRequest`, parameterized by the
dispatcher that runs once the header is decoded (the `switch` over the
fifteen handlers; it returns the encoded response if any, and whether the
handler failed): a header decode failure is an error with no response;
an unauthenticated request for any API other than SaslHandshake (17),
SaslAuthenticate (36) and ApiVersions (18) is answered with
`SASL_AUTHENTICATION_FAILED` (31) and is not an error. -/
def handleRequestM
    (dispatch : RequestHeader → List Nat → Option (List Nat) × Bool)
    (authenticated : Bool) (body : List Nat) : Option (List Nat) × Bool :=
  match readHeader body with
  | Option.none => (Option.none, true)
  | some (h, rest) =>
    if authenticated = false ∧ h.apiKey ≠ 17 ∧ h.apiKey ≠ 36 ∧ h.apiKey ≠ 18 then
      (some (errorResponse h.correlationID 31), false)
    else dispatch h rest

/-- Outcome of one iteration of `handleConnection`'s loop on a frame:
close the connection, or keep serving the rest of the stream after
writing the optional response. -/
inductive FrameOutcome where
  | close
  | next (sent : Option (List Nat)) (rest : List Nat)
deriving DecidableEq, Repr

/-- One iteration of `KafkaServer.handleConnection`'s read loop: read the
4-byte size (failure closes), bound-check it against the configured
message limit (violation closes), read the body (failure closes), then
let `handleRequest` run — a handler error or a nil response just
continues with the next frame, otherwise the response is written. -/
def connStep (maxMessageSize : Int)
    (handle : List Nat → Option (List Nat) × Bool)
    (input : List Nat) : FrameOutcome :=
  match readInt32s input with
  | Option.none => .close
  | some (size, rest) =>
    if size < 0 ∨ size > maxMessageSize then .close
    else match takeExact rest size.toNat with
      | Option.none => .close
      | some (body, rest') =>
        match handle body with
        | (_, true) => .next Option.none rest'
        | (Option.none, false) => .next Option.none rest'
        | (some resp, false) => .next (some resp) rest'

/-- Dispatcher stub used on frames that fail header decoding before any
dispatch happens; `c7_close_iff_framing_error` shows the outcome on such
frames does not depend on the dispatcher. -/
def nullDispatch : RequestHeader → List Nat → Option (List Nat) × Bool :=
  fun _ _ => (Option.none, false)

/-- The C7 counterexample frame: a well-framed request of declared size 0
whose empty body fails header decoding. -/
def c7frame : List Nat := [0, 0, 0, 0]

/-- C7 counterexample: a frame whose body fails to decode does NOT close
the connection — the loop logs the error and continues with the next
frame (`continue` in the source), contradicting the claim that decode
failures close the connection. -/
theorem c7_decode_failure_keeps_connection :
    connStep 1048576 (handleRequestM nullDispatch true) c7frame
      = .next Option.none [] ∧
    FrameOutcome.next Option.none [] ≠ FrameOutcome.close := by
  exact ⟨rfl, by decide⟩

/-- C7 as amended: the connection is closed exactly on framing errors —
a short size read, a declared size that is negative or above the limit,
or a short body read; a frame whose header fails to decode (and, via the
dispatcher's error flag, any body decode failure) leaves the connection
open with no response written. -/
theorem c7_close_iff_framing_error (limit : Int)
    (dispatch : RequestHeader → List Nat → Option (List Nat) × Bool)
    (auth : Bool) (input : List Nat) :
    (connStep limit (handleRequestM dispatch auth) input = .close ↔
      (readInt32s input = Option.none ∨
       ∃ size rest, readInt32s input = some (size, rest) ∧
         (size < 0 ∨ size > limit ∨ takeExact rest size.toNat = Option.none))) ∧
    (∀ size rest body rest', readInt32s input = some (size, rest) →
      ¬ (size < 0 ∨ size > limit) →
      takeExact rest size.toNat = some (body, rest') →
      readHeader body = Option.none →
      connStep limit (handleRequestM dispatch auth) input
        = .next Option.none rest') := by
  constructor
  · cases h1 : readInt32s input with
    | none =>
      exact iff_of_true (by simp only [connStep, h1]) (Or.inl rfl)
    | some sr =>
      obtain ⟨size, rest⟩ := sr
      by_cases hb : size < 0 ∨ size > limit
      · refine iff_of_true (by simp only [connStep, h1, if_pos hb])
          (Or.inr ⟨size, rest, rfl, ?_⟩)
        rcases hb with hb | hb
        · exact Or.inl hb
        · exact Or.inr (Or.inl hb)
      · cases h2 : takeExact rest size.toNat with
        | none =>
          exact iff_of_true (by simp only [connStep, h1, if_neg hb, h2])
            (Or.inr ⟨size, rest, rfl, Or.inr (Or.inr h2)⟩)
        | some br =>
          obtain ⟨body, rest'⟩ := br
          refine iff_of_false ?_ ?_
          · simp only [connStep, h1, if_neg hb, h2]
            rcases hh : handleRequestM dispatch auth body with ⟨o, e⟩
            cases e
            · cases o <;> simp
            · simp
          · intro hcontra
            rcases hcontra with hcontra | ⟨s', r', heq, hcase⟩
            · exact Option.noConfusion hcontra
            · injection heq with heq1
              injection heq1 with hs hr
              subst hs
              subst hr
              rcases hcase with hc | hc | hc
              · exact hb (Or.inl hc)
              · exact hb (Or.inr hc)
              · rw [h2] at hc
                cases hc
  · intro size rest body rest' h1 hb h2 hh
    simp only [connStep, h1, if_neg hb, h2, handleRequestM, hh]

theorem c7_close_iff_framing_error_witness :
    readInt32s c7frame = some (0, []) ∧
    connStep 1048576 (handleRequestM nullDispatch true) c7frame
      = .next Option.none [] :=
  ⟨rfl, (c7_close_iff_framing_error 1048576 nullDispatch true c7frame).2
    0 [] [] [] rfl (by decide) rfl rfl⟩

end Monolog
